import Mathlib

/-!
# Verification of the lowell UKI inspection core

Shallow embedding of the `lowell-core` UKI introspection engine:

* `src/lowell-core/src/formats/initramfs.rs` — compression sniffing (`detect`)
* `src/lowell-core/src/formats/osrel.rs`     — os-release derivation
* `src/lowell-core/src/formats/pe.rs`        — `PeFile` section/certificate access
* `src/lowell-core/src/inspect/ext.rs`       — `SectionLookupExt`
* `src/lowell-core/src/uki/inspect.rs`       — `inspect` pipeline and `Report`

Bytes are modelled as `List Nat` (each entry a byte value), strings as Lean
`String`, machine integers as `Nat` (the Rust `usize`/`u32` arithmetic involved
never overflows: `checked_add` / `usize::try_from::<u32>` are commented where
they occur).  External dependencies that are not part of the repository
(goblin's PE parser, the `rs_release` os-release line parser, the `sha2`
SHA-256 implementation) are modelled from the spec; each such definition is
marked `Modelled from the spec:` in its doc comment.
-/

namespace Lowell

/-! ## Text utilities (model of the Rust `str` operations used by the core) -/

/-- ASCII whitespace predicate used by the `trim` model (`' '`, tab, LF, CR).
This is the ASCII restriction of Rust's `char::is_whitespace`; all text the
engine trims is ASCII-range in every claim considered here. -/
def isWs (c : Char) : Bool :=
  c = ' ' || c = '\t' || c = '\n' || c = '\r'

/-- Strip leading and trailing whitespace from a character list
(model of Rust `str::trim` on the underlying characters). -/
def trimList (l : List Char) : List Char :=
  ((l.dropWhile isWs).reverse.dropWhile isWs).reverse

/-- Model of Rust `str::trim`. -/
def trimStr (s : String) : String :=
  String.mk (trimList s.data)

/-- Truncate a byte list at the first NUL byte: model of
`b.iter().position(|&c| c == 0).unwrap_or(b.len())` followed by `&b[..end]`
(`pe.rs`, `read_text`). -/
def truncAtNul (b : List Nat) : List Nat :=
  b.takeWhile (fun c => c != 0)

/-! ### UTF-8 lossy decoding

Model of Rust `String::from_utf8_lossy`: decode UTF-8, replacing each maximal
invalid subpart with U+FFFD, per the WHATWG / Unicode "substitution of maximal
subparts" policy implemented by Rust's standard library. -/

/-- The replacement character U+FFFD. -/
def replChar : Char := Char.ofNat 0xFFFD

/-- Is `b` a UTF-8 continuation byte (`0x80..=0xBF`)? -/
def isCont (b : Nat) : Bool := 0x80 ≤ b && b ≤ 0xBF

/-- Decode loop for lossy UTF-8; `fuel` bounds the recursion (callers pass the
input length, which suffices since every step consumes at least one byte). -/
def utf8LossyLoop : Nat → List Nat → List Char
  | 0, _ => []
  | _ + 1, [] => []
  | fuel + 1, b :: rest =>
    if b ≤ 0x7F then
      Char.ofNat b :: utf8LossyLoop fuel rest
    else if 0xC2 ≤ b && b ≤ 0xDF then
      match rest with
      | b1 :: rest1 =>
        if isCont b1 then
          Char.ofNat ((b - 0xC0) * 0x40 + (b1 - 0x80)) :: utf8LossyLoop fuel rest1
        else replChar :: utf8LossyLoop fuel rest
      | [] => [replChar]
    else if 0xE0 ≤ b && b ≤ 0xEF then
      -- three-byte sequences; the first continuation range depends on b
      let lo1 := if b = 0xE0 then 0xA0 else 0x80
      let hi1 := if b = 0xED then 0x9F else 0xBF
      match rest with
      | b1 :: rest1 =>
        if lo1 ≤ b1 && b1 ≤ hi1 then
          match rest1 with
          | b2 :: rest2 =>
            if isCont b2 then
              Char.ofNat ((b - 0xE0) * 0x1000 + (b1 - 0x80) * 0x40 + (b2 - 0x80)) ::
                utf8LossyLoop fuel rest2
            else replChar :: utf8LossyLoop fuel rest1
          | [] => [replChar]
        else replChar :: utf8LossyLoop fuel rest
      | [] => [replChar]
    else if 0xF0 ≤ b && b ≤ 0xF4 then
      -- four-byte sequences; the first continuation range depends on b
      let lo1 := if b = 0xF0 then 0x90 else 0x80
      let hi1 := if b = 0xF4 then 0x8F else 0xBF
      match rest with
      | b1 :: rest1 =>
        if lo1 ≤ b1 && b1 ≤ hi1 then
          match rest1 with
          | b2 :: rest2 =>
            if isCont b2 then
              match rest2 with
              | b3 :: rest3 =>
                if isCont b3 then
                  Char.ofNat ((b - 0xF0) * 0x40000 + (b1 - 0x80) * 0x1000 +
                      (b2 - 0x80) * 0x40 + (b3 - 0x80)) :: utf8LossyLoop fuel rest3
                else replChar :: utf8LossyLoop fuel rest2
              | [] => [replChar]
            else replChar :: utf8LossyLoop fuel rest1
          | [] => [replChar]
        else replChar :: utf8LossyLoop fuel rest
      | [] => [replChar]
    else
      -- 0x80..=0xC1 and 0xF5..=0xFF can never begin a valid sequence
      replChar :: utf8LossyLoop fuel rest

/-- Model of Rust `String::from_utf8_lossy(..).to_string()`. -/
def utf8Lossy (b : List Nat) : String :=
  String.mk (utf8LossyLoop b.length b)

/-! ## Compression sniffing (`formats/initramfs.rs`) -/

/-- `Compression` from `formats/initramfs.rs`. -/
inductive Compression where
  | gzip
  | xz
  | zstd
  | uncompressed
  | unknown
  deriving DecidableEq, Repr

/-- `detect` from `formats/initramfs.rs`: match on the leading magic bytes. -/
def detect (bytes : List Nat) : Compression :=
  match bytes with
  -- gzip: 1F 8B
  | 0x1F :: 0x8B :: _ => .gzip
  -- xz: FD 37 7A 58 5A 00
  | 0xFD :: 0x37 :: 0x7A :: 0x58 :: 0x5A :: 0x00 :: _ => .xz
  -- zstd: 28 B5 2F FD
  | 0x28 :: 0xB5 :: 0x2F :: 0xFD :: _ => .zstd
  -- uncompressed cpio (newc): ASCII "070701"
  | 0x30 :: 0x37 :: 0x30 :: 0x37 :: 0x30 :: 0x31 :: _ => .uncompressed
  -- anything else
  | _ => .unknown

/-! ## SHA-256 (`sha2::Sha256` as used by `uki/inspect.rs`)

Modelled from the spec: §4.4 requires a deterministic 256-bit content hash
rendered as lowercase hexadecimal; the code uses the external `sha2` crate
(`Sha256::digest` + `format!` in `{:x}` mode), which is not part of this
repository.  The definitions below implement SHA-256 per FIPS 180-4. -/

/-- Reduce modulo 2^32 (all SHA-256 words are 32-bit). -/
def w32 (n : Nat) : Nat := n % 4294967296

/-- Right-rotate a 32-bit word by `n` places (exact for `w < 2^32`). -/
def rotr (n w : Nat) : Nat := w / 2 ^ n + w % 2 ^ n * 2 ^ (32 - n)

/-- SHA-256 `Ch(e,f,g)`; `not e` is `0xFFFFFFFF - e` for a 32-bit word. -/
def shaCh (e f g : Nat) : Nat := Nat.xor (Nat.land e f) (Nat.land (4294967295 - e) g)

/-- SHA-256 `Maj(a,b,c)`. -/
def shaMaj (a b c : Nat) : Nat :=
  Nat.xor (Nat.xor (Nat.land a b) (Nat.land a c)) (Nat.land b c)

/-- SHA-256 big sigma-0. -/
def bSig0 (w : Nat) : Nat := Nat.xor (Nat.xor (rotr 2 w) (rotr 13 w)) (rotr 22 w)

/-- SHA-256 big sigma-1. -/
def bSig1 (w : Nat) : Nat := Nat.xor (Nat.xor (rotr 6 w) (rotr 11 w)) (rotr 25 w)

/-- SHA-256 small sigma-0. -/
def sSig0 (w : Nat) : Nat := Nat.xor (Nat.xor (rotr 7 w) (rotr 18 w)) (w / 2 ^ 3)

/-- SHA-256 small sigma-1. -/
def sSig1 (w : Nat) : Nat := Nat.xor (Nat.xor (rotr 17 w) (rotr 19 w)) (w / 2 ^ 10)

/-- The 64 SHA-256 round constants (decimal rendering of the FIPS 180-4
table: the first 32 bits of the fractional parts of the cube roots of the
first 64 primes). -/
def sha256K : List Nat :=
  [1116352408, 1899447441, 3049323471, 3921009573, 961987163,
   1508970993, 2453635748, 2870763221, 3624381080, 310598401,
   607225278, 1426881987, 1925078388, 2162078206, 2614888103,
   3248222580, 3835390401, 4022224774, 264347078, 604807628,
   770255983, 1249150122, 1555081692, 1996064986, 2554220882,
   2821834349, 2952996808, 3210313671, 3336571891, 3584528711,
   113926993, 338241895, 666307205, 773529912, 1294757372,
   1396182291, 1695183700, 1986661051, 2177026350, 2456956037,
   2730485921, 2820302411, 3259730800, 3345764771, 3516065817,
   3600352804, 4094571909, 275423344, 430227734, 506948616,
   659060556, 883997877, 958139571, 1322822218, 1537002063,
   1747873779, 1955562222, 2024104815, 2227730452, 2361852424,
   2428436474, 2756734187, 3204031479, 3329325298]

/-- Running hash state: eight 32-bit words. -/
structure Hash8 where
  a0 : Nat
  a1 : Nat
  a2 : Nat
  a3 : Nat
  a4 : Nat
  a5 : Nat
  a6 : Nat
  a7 : Nat
  deriving DecidableEq, Repr

/-- The SHA-256 initial hash value (decimal rendering of the FIPS 180-4
table: the first 32 bits of the fractional parts of the square roots of the
first 8 primes). -/
def sha256H0 : Hash8 :=
  ⟨1779033703, 3144134277, 1013904242, 2773480762, 1359893119, 2600822924,
   528734635, 1541459225⟩

/-- Group a byte list into big-endian 32-bit words (groups of four). -/
def bytesToWords : List Nat → List Nat
  | a :: b :: c :: d :: rest => (((a * 256 + b) * 256 + c) * 256 + d) :: bytesToWords rest
  | _ => []

/-- Message-schedule extension: `acc` holds the words emitted so far in
reverse; each step prepends `W[t] = s1(W[t-2]) + W[t-7] + s0(W[t-15]) + W[t-16]`. -/
def schedExt : Nat → List Nat → List Nat
  | 0, acc => acc
  | t + 1, acc =>
    let wNew := w32 (sSig1 (acc.getD 1 0) + acc.getD 6 0 + sSig0 (acc.getD 14 0) +
      acc.getD 15 0)
    schedExt t (wNew :: acc)

/-- The 64-entry message schedule of one 16-word chunk. -/
def schedule (w16 : List Nat) : List Nat :=
  (schedExt 48 w16.reverse).reverse

/-- One SHA-256 round: state `(a,b,c,d,e,f,g,h)` updated with `(K[t], W[t])`. -/
def sha256Round (st : Nat × Nat × Nat × Nat × Nat × Nat × Nat × Nat) (kw : Nat × Nat) :
    Nat × Nat × Nat × Nat × Nat × Nat × Nat × Nat :=
  let (a, b, c, d, e, f, g, h) := st
  let t1 := w32 (h + bSig1 e + shaCh e f g + kw.1 + kw.2)
  let t2 := w32 (bSig0 a + shaMaj a b c)
  (w32 (t1 + t2), a, b, c, w32 (d + t1), e, f, g)

/-- Compress one 64-byte chunk into the running hash. -/
def sha256Compress (h : Hash8) (chunk : List Nat) : Hash8 :=
  let ws := schedule (bytesToWords chunk)
  let (a, b, c, d, e, f, g, hh) :=
    (sha256K.zip ws).foldl sha256Round (h.a0, h.a1, h.a2, h.a3, h.a4, h.a5, h.a6, h.a7)
  ⟨w32 (h.a0 + a), w32 (h.a1 + b), w32 (h.a2 + c), w32 (h.a3 + d),
   w32 (h.a4 + e), w32 (h.a5 + f), w32 (h.a6 + g), w32 (h.a7 + hh)⟩

/-- The eight big-endian length bytes of the padding block. -/
def lenBytes8 (n : Nat) : List Nat :=
  [n / 2 ^ 56 % 256, n / 2 ^ 48 % 256, n / 2 ^ 40 % 256, n / 2 ^ 32 % 256,
   n / 2 ^ 24 % 256, n / 2 ^ 16 % 256, n / 2 ^ 8 % 256, n % 256]

/-- FIPS 180-4 padding: append `0x80`, zero bytes up to 56 mod 64, then the
bit length as eight big-endian bytes. -/
def padMsg (msg : List Nat) : List Nat :=
  let len := msg.length
  let k := (120 - (len + 1) % 64) % 64
  msg ++ 0x80 :: (List.replicate k 0 ++ lenBytes8 (8 * len))

/-- Split into 64-byte chunks; `fuel` bounds the recursion (callers pass the
list length, which suffices since every step consumes 64 bytes). -/
def chunks64 : Nat → List Nat → List (List Nat)
  | 0, _ => []
  | _ + 1, [] => []
  | fuel + 1, l => l.take 64 :: chunks64 fuel (l.drop 64)

/-- SHA-256 of a byte list, as the final eight-word state. -/
def sha256Words (msg : List Nat) : Hash8 :=
  let padded := padMsg msg
  (chunks64 padded.length padded).foldl sha256Compress sha256H0

/-- Big-endian bytes of one 32-bit word. -/
def wordBytes (w : Nat) : List Nat :=
  [w / 2 ^ 24 % 256, w / 2 ^ 16 % 256, w / 2 ^ 8 % 256, w % 256]

/-- SHA-256 of a byte list, as 32 digest bytes. -/
def sha256Bytes (msg : List Nat) : List Nat :=
  let h := sha256Words msg
  wordBytes h.a0 ++ wordBytes h.a1 ++ wordBytes h.a2 ++ wordBytes h.a3 ++
    wordBytes h.a4 ++ wordBytes h.a5 ++ wordBytes h.a6 ++ wordBytes h.a7

/-- The sixteen lowercase hexadecimal digits. -/
def hexChars : List Char :=
  "0123456789abcdef".data

/-- Lowercase hexadecimal digit for `n < 16`. -/
def hexDigit (n : Nat) : Char := hexChars.getD n '0'

/-- Two lowercase hexadecimal digits of one byte. -/
def hexByte (b : Nat) : List Char := [hexDigit (b / 16 % 16), hexDigit (b % 16)]

/-- `format!` in lowercase-hex mode applied to `Sha256::digest(msg)`:
the 64-character lowercase hexadecimal rendering of the SHA-256 digest. -/
def sha256hex (msg : List Nat) : String :=
  String.mk ((sha256Bytes msg).flatMap hexByte)

/-! ## Error taxonomy

The Rust code returns `anyhow::Result`; the distinct failure sources reached by
the inspection pipeline are modelled as one inductive. -/

/-- Errors surfaced by the embedded inspection pipeline.
`sectionNotFound name` is the `anyhow` message built in
`ext.rs::section_bytes_and_location` when `section_bytes` returns `None`;
`sectionInfoMissing name` is its second message (unreachable in practice);
`malformedImage` is goblin's parse failure; `osReleaseParse` is
`rs_release::OsReleaseError::ParseError`. -/
inductive Err where
  | malformedImage
  | sectionNotFound (name : String)
  | sectionInfoMissing (name : String)
  | osReleaseParse
  deriving DecidableEq, Repr

/-! ## os-release parsing (`formats/osrel.rs` and the `rs_release` dependency) -/

/-- `OsRelease` from `formats/osrel.rs`. -/
structure OsRelease where
  name : Option String
  id : Option String
  version_id : Option String
  deriving DecidableEq, Repr

/-- Split a character list into lines at newline characters
(model of Rust `str::lines`; a possible carriage return is removed by the
per-line trim in the parser below). -/
def splitLines (l : List Char) : List (List Char) :=
  l.foldr
    (fun c acc =>
      match acc with
      | [] => [[]]
      | h :: t => if c = '\n' then [] :: h :: t else (c :: h) :: t)
    [[]]

/-- Split a character list at its first `=`, returning the parts before and
after it (model of `splitn(2, '=')`). -/
def splitFirstEq : List Char → Option (List Char × List Char)
  | [] => none
  | c :: rest =>
    if c = '=' then some ([], rest)
    else
      match splitFirstEq rest with
      | some (k, v) => some (c :: k, v)
      | none => none

/-- Strip one pair of matching surrounding double or single quotes. -/
def unquote (v : List Char) : List Char :=
  let dq := Char.ofNat 34
  let sq := Char.ofNat 39
  if 2 ≤ v.length &&
      ((v.head? == some dq && v.getLast? == some dq) ||
       (v.head? == some sq && v.getLast? == some sq)) then
    (v.drop 1).dropLast
  else v

/-- Parse one os-release line: `none` for blank and comment lines,
a `KEY`/`VALUE` pair for `KEY=VALUE` lines (value unquoted), and a parse
error for any other non-blank line. -/
def parseOsLine (ln : List Char) : Except Err (Option (String × String)) :=
  let t := trimList ln
  if t.isEmpty then .ok none
  else if t.head? == some '#' then .ok none
  else
    match splitFirstEq t with
    | none => .error .osReleaseParse
    | some (k, v) => .ok (some (String.mk (trimList k), String.mk (unquote (trimList v))))

/-- Insert into the key/value map, overwriting an existing binding
(model of `HashMap::insert`). -/
def osInsert (m : List (String × String)) (k v : String) : List (String × String) :=
  (k, v) :: m.filter (fun p => p.1 != k)

/-- Look a key up in the key/value map (model of `HashMap::get(..).cloned()`). -/
def osGet (m : List (String × String)) (k : String) : Option String :=
  (m.find? (fun p => p.1 == k)).map (fun p => p.2)

/-- Modelled from the spec: `rs_release::parse_os_release_str`, the external
os-release line parser (not part of this repository).  Per the os-release
convention described in §4.3: split into lines, skip blank and `#`-comment
lines, split each remaining line at its first `=` into key and value, strip
surrounding quotes from the value, build a key-to-value map; a non-blank,
non-comment line with no `=` is a parse error (`OsReleaseError::ParseError`). -/
def parse_os_release_str (text : String) : Except Err (List (String × String)) :=
  (splitLines text.data).foldlM
    (fun m ln => do
      match ← parseOsLine ln with
      | none => pure m
      | some (k, v) => pure (osInsert m k v))
    []

/-- `read_os_release_from_str` from `formats/osrel.rs`: parse, then derive the
three fields, `name` preferring `PRETTY_NAME` over `NAME`. -/
def read_os_release_from_str (text : String) : Except Err (Option OsRelease) := do
  let m ← parse_os_release_str text
  let name := (osGet m "PRETTY_NAME").orElse (fun _ => osGet m "NAME")
  let id := osGet m "ID"
  let version_id := osGet m "VERSION_ID"
  pure (some { name := name, id := id, version_id := version_id })

/-! ## PE/COFF file model (`formats/pe.rs`) -/

/-- One entry of the parsed section table, with goblin's field names. -/
structure PeSection where
  name : String
  pointer_to_raw_data : Nat
  size_of_raw_data : Nat
  deriving DecidableEq, Repr

/-- One parsed attribute certificate (WIN_CERTIFICATE header plus raw blob). -/
structure AttributeCertificate where
  length : Nat
  revision : Nat
  certificate_type : Nat
  certificate : List Nat
  deriving DecidableEq, Repr

/-- Modelled from the spec: the read view goblin's `PE::parse_with_opts`
produces from the image bytes (the external PE parser is not part of this
repository).  Per the adapter contract of §4.1/§6 it exposes exactly the
machine-type code, the 32/64-bit flag, the section table and the
attribute-certificate table. -/
structure ParsedPE where
  machine : Nat
  is_64 : Bool
  sections : List PeSection
  certificates : List AttributeCertificate
  deriving DecidableEq, Repr

/-- `PeFile` from `formats/pe.rs`: the owned image bytes.  The `parsed` field
records what goblin returns on those bytes (`none` when they are not a valid
PE/EFI image); goblin itself is modelled from the spec, see `ParsedPE`. -/
structure PeFile where
  data : List Nat
  parsed : Option ParsedPE
  deriving DecidableEq, Repr

/-- `PeFile::parse_pe`: goblin parse with attribute-certificate parsing
enabled, or the `not a valid PE/EFI image` error. -/
def PeFile.parse_pe (f : PeFile) : Except Err ParsedPE :=
  match f.parsed with
  | some pe => .ok pe
  | none => .error .malformedImage

/-- goblin's `COFF_MACHINE_X86_64`. -/
def COFF_MACHINE_X86_64 : Nat := 0x8664
/-- goblin's `COFF_MACHINE_ARM64`. -/
def COFF_MACHINE_ARM64 : Nat := 0xAA64
/-- goblin's `COFF_MACHINE_ARM`. -/
def COFF_MACHINE_ARM : Nat := 0x1C0
/-- goblin's `COFF_MACHINE_X86`. -/
def COFF_MACHINE_X86 : Nat := 0x14C

/-- The fixed machine-code-to-label table of `PeFile::arch_summary`. -/
def archOf (machine : Nat) : String :=
  if machine = COFF_MACHINE_X86_64 then "x86_64"
  else if machine = COFF_MACHINE_ARM64 then "aarch64"
  else if machine = COFF_MACHINE_ARM then "arm"
  else if machine = COFF_MACHINE_X86 then "i386"
  else "unknown"

/-- `PeFile::arch_summary`: architecture label and PE32+ flag. -/
def PeFile.arch_summary (f : PeFile) : Except Err (String × Bool) := do
  let pe ← f.parse_pe
  pure (archOf pe.machine, pe.is_64)

/-- First section of the table with the given name
(`pe.sections.iter().find(|t| t.name().ok() == Some(name))`). -/
def findSection (pe : ParsedPE) (name : String) : Option PeSection :=
  pe.sections.find? (fun t => t.name == name)

/-- `PeFile::section_info`: offset and file size of a named section, if any. -/
def PeFile.section_info (f : PeFile) (name : String) : Except Err (Option (Nat × Nat)) := do
  let pe ← f.parse_pe
  match findSection pe name with
  | some s => pure (some (s.pointer_to_raw_data, s.size_of_raw_data))
  | none => pure none

/-- `PeFile::section_bytes`: raw bytes of a named section; `none` when the
section is missing or its coordinates are out of range.  `usize::try_from` on
a `u32` cannot fail and `checked_add` cannot overflow on `Nat`, so the only
remaining check is the one performed by `self.data.get(off..end)`:
the range must lie within the image. -/
def PeFile.section_bytes (f : PeFile) (name : String) : Except Err (Option (List Nat)) := do
  let pe ← f.parse_pe
  match findSection pe name with
  | some s =>
    let off := s.pointer_to_raw_data
    let sz := s.size_of_raw_data
    if off + sz ≤ f.data.length then
      pure (some ((f.data.drop off).take sz))
    else
      pure none
  | none => pure none

/-- `PeFile::read_text`: section bytes truncated at the first NUL and decoded
as lossy UTF-8. -/
def PeFile.read_text (f : PeFile) (name : String) : Except Err (Option String) := do
  let b? ← f.section_bytes name
  pure (b?.map (fun b => utf8Lossy (truncAtNul b)))

/-- `PeFile::is_signed`: whether at least one attribute certificate is present
(presence only, no validity check). -/
def PeFile.is_signed (f : PeFile) : Except Err Bool := do
  let pe ← f.parse_pe
  pure (!pe.certificates.isEmpty)

/-- `PeFile::certificate_metadata`: `(length, revision, type)` of each
attribute certificate. -/
def PeFile.certificate_metadata (f : PeFile) : Except Err (List (Nat × Nat × Nat)) := do
  let pe ← f.parse_pe
  pure (pe.certificates.map (fun c => (c.length, c.revision, c.certificate_type)))

/-- `PeFile::certificate_blobs`: the raw certificate blobs. -/
def PeFile.certificate_blobs (f : PeFile) : Except Err (List (List Nat)) := do
  let pe ← f.parse_pe
  pure (pe.certificates.map (fun c => c.certificate))

/-- `read_os_release` from `formats/osrel.rs`: `none` when `.osrel` is absent,
otherwise parse its text and derive the fields (same derivation as
`read_os_release_from_str`). -/
def read_os_release (pef : PeFile) : Except Err (Option OsRelease) := do
  match ← pef.read_text ".osrel" with
  | none => pure none
  | some text =>
    let m ← parse_os_release_str text
    let name := (osGet m "PRETTY_NAME").orElse (fun _ => osGet m "NAME")
    let id := osGet m "ID"
    let version_id := osGet m "VERSION_ID"
    pure (some { name := name, id := id, version_id := version_id })

/-! ## Section lookup extension (`inspect/ext.rs`) and the report types -/

/-- `SectionInfo` from `uki/inspect.rs`. -/
structure SectionInfo where
  offset : Nat
  size : Nat
  sha256 : String
  deriving DecidableEq, Repr

/-- `InitrdInfo` from `uki/inspect.rs` (the flattened `section` field is named
`sect` here because `section` is a Lean keyword). -/
structure InitrdInfo where
  sect : SectionInfo
  compression : Compression
  entries_estimate : Option Nat
  deriving DecidableEq, Repr

/-- `Report` from `uki/inspect.rs`. -/
structure Report where
  arch : String
  pe32_plus : Bool
  has_signature : Bool
  cert_count : Nat
  cmdline : String
  os_release : Option OsRelease
  linux : SectionInfo
  initrd : InitrdInfo
  deriving DecidableEq, Repr

/-- `SectionLookupExt::section_bytes_and_location` from `inspect/ext.rs`:
section bytes plus their (offset, size), failing when `section_bytes` or
`section_info` returns `None`. -/
def PeFile.section_bytes_and_location (f : PeFile) (name : String) :
    Except Err (List Nat × (Nat × Nat)) := do
  match ← f.section_bytes name with
  | none => .error (.sectionNotFound name)
  | some bytes =>
    match ← f.section_info name with
    | none => .error (.sectionInfoMissing name)
    | some (offset, size) => pure (bytes, (offset, size))

/-- `SectionLookupExt::section_info_and_bytes` from `inspect/ext.rs`:
builds a `SectionInfo` with an empty `sha256` placeholder. -/
def PeFile.section_info_and_bytes (f : PeFile) (name : String) :
    Except Err (SectionInfo × List Nat) := do
  let (bytes, (offset, size)) ← f.section_bytes_and_location name
  pure ({ offset := offset, size := size, sha256 := "" }, bytes)

/-! ## The inspection pipeline (`uki/inspect.rs`) -/

/-- `inspect` from `uki/inspect.rs`, starting after the initial file read:
parse headers, extract `.cmdline` and `.osrel` (lenient), fetch and hash
`.linux` and `.initrd` (strict), detect initrd compression, count
certificates, and assemble the `Report`. -/
def inspect (pef : PeFile) : Except Err Report :=
  match pef.arch_summary with
  | .error e => .error e
  | .ok (arch, pe32p) =>
    match pef.read_text ".cmdline" with
    | .error e => .error e
    | .ok cmdOpt =>
      let cmdline := trimStr (cmdOpt.getD "")
      match read_os_release pef with
      | .error e => .error e
      | .ok os_release =>
        match pef.section_info_and_bytes ".linux" with
        | .error e => .error e
        | .ok (linuxInfo0, linuxBytes) =>
          let linuxInfo := { linuxInfo0 with sha256 := sha256hex linuxBytes }
          match pef.section_info_and_bytes ".initrd" with
          | .error e => .error e
          | .ok (initrdInfo0, initrdBytes) =>
            let initrdInfo := { initrdInfo0 with sha256 := sha256hex initrdBytes }
            let compression := detect initrdBytes
            match pef.certificate_blobs with
            | .error e => .error e
            | .ok blobs =>
              let cert_count := blobs.length
              let has_signature := decide (cert_count > 0)
              .ok
                { arch := arch
                  pe32_plus := pe32p
                  has_signature := has_signature
                  cert_count := cert_count
                  cmdline := cmdline
                  os_release := os_release
                  linux := linuxInfo
                  initrd :=
                    { sect := initrdInfo
                      compression := compression
                      entries_estimate := none } }

/-! ## General helper lemmas -/

/-- `bind` on a successful `Except` applies the continuation. -/
theorem exBind_ok {ε α β : Type} (a : α) (f : α → Except ε β) :
    (Except.ok a >>= f) = f a := rfl

/-- `bind` on a failed `Except` propagates the error. -/
theorem exBind_error {ε α β : Type} (e : ε) (f : α → Except ε β) :
    ((Except.error e : Except ε α) >>= f) = .error e := rfl

/-- `pure` on `Except` is `Except.ok`. -/
theorem exPure {ε α : Type} (a : α) : (pure a : Except ε α) = .ok a := rfl

/-! ### Trim idempotence -/

/-- `dropWhile` is idempotent. -/
theorem dropWhile_dropWhile_self (p : Char → Bool) (l : List Char) :
    (l.dropWhile p).dropWhile p = l.dropWhile p := by
  induction l with
  | nil => rfl
  | cons a t ih =>
    by_cases h : p a
    · simp [List.dropWhile_cons, h, ih]
    · simp [List.dropWhile_cons, h]

/-- The head surviving `dropWhile` fails the predicate. -/
theorem dropWhile_head_not (p : Char → Bool) (l : List Char) (a : Char) (t : List Char)
    (h : l.dropWhile p = a :: t) : p a = false := by
  induction l with
  | nil => simp at h
  | cons b s ih =>
    by_cases hb : p b
    · rw [List.dropWhile_cons] at h
      simp [hb] at h
      exact ih h
    · rw [List.dropWhile_cons] at h
      simp [hb] at h
      rw [← h.1]
      simp [hb]

/-- `dropWhile` keeps a trailing part of the list. -/
theorem dropWhile_is_suffixpart (p : Char → Bool) (l : List Char) :
    ∃ s, s ++ l.dropWhile p = l := by
  induction l with
  | nil => exact ⟨[], rfl⟩
  | cons a t ih =>
    by_cases h : p a
    · obtain ⟨s, hs⟩ := ih
      exact ⟨a :: s, by simp [List.dropWhile_cons, h, hs]⟩
    · exact ⟨[], by simp [List.dropWhile_cons, h]⟩

/-- The left half of `trimList`. -/
def ltrim (l : List Char) : List Char := l.dropWhile isWs

/-- The right half of `trimList`. -/
def rtrim (l : List Char) : List Char := (l.reverse.dropWhile isWs).reverse

/-- `ltrim` is idempotent. -/
theorem ltrim_ltrim (l : List Char) : ltrim (ltrim l) = ltrim l :=
  dropWhile_dropWhile_self isWs l

/-- `rtrim` is idempotent. -/
theorem rtrim_rtrim (l : List Char) : rtrim (rtrim l) = rtrim l := by
  unfold rtrim
  rw [List.reverse_reverse, dropWhile_dropWhile_self]

/-- `rtrim` keeps a leading part of the list. -/
theorem rtrim_append_eq (l : List Char) : ∃ s, rtrim l ++ s = l := by
  obtain ⟨s, hs⟩ := dropWhile_is_suffixpart isWs l.reverse
  refine ⟨s.reverse, ?_⟩
  rw [rtrim, ← List.reverse_append, hs, List.reverse_reverse]

/-- A left-trimmed list stays left-trimmed after `rtrim`. -/
theorem ltrim_rtrim_of_ltrimmed (l : List Char) (h : ltrim l = l) :
    ltrim (rtrim l) = rtrim l := by
  cases hc : rtrim l with
  | nil => rfl
  | cons a t =>
    obtain ⟨s, hs⟩ := rtrim_append_eq l
    have hl : l = a :: (t ++ s) := by rw [← hs, hc]; rfl
    have hf : isWs a = false := by
      apply dropWhile_head_not isWs l a (t ++ s)
      rw [show l.dropWhile isWs = ltrim l from rfl, h, hl]
    rw [ltrim, List.dropWhile_cons]
    simp [hf]

/-- `trimList` is idempotent. -/
theorem trimList_idem (l : List Char) : trimList (trimList l) = trimList l := by
  show rtrim (ltrim (rtrim (ltrim l))) = rtrim (ltrim l)
  rw [ltrim_rtrim_of_ltrimmed (ltrim l) (ltrim_ltrim l), rtrim_rtrim]

/-- The model of Rust `str::trim` is idempotent. -/
theorem trimStr_idem (s : String) : trimStr (trimStr s) = trimStr s := by
  unfold trimStr
  rw [trimList_idem]

/-! ## Pipeline lemmas -/
theorem parse_pe_eq (f : PeFile) (pe : ParsedPE) (h : f.parsed = some pe) :
    f.parse_pe = .ok pe := by
  simp [PeFile.parse_pe, h]

theorem arch_summary_eq (f : PeFile) (pe : ParsedPE) (h : f.parsed = some pe) :
    f.arch_summary = .ok (archOf pe.machine, pe.is_64) := by
  unfold PeFile.arch_summary
  rw [parse_pe_eq f pe h, exBind_ok, exPure]

theorem cert_blobs_eq (f : PeFile) (pe : ParsedPE) (h : f.parsed = some pe) :
    f.certificate_blobs = .ok (pe.certificates.map (fun c => c.certificate)) := by
  unfold PeFile.certificate_blobs
  rw [parse_pe_eq f pe h, exBind_ok, exPure]

theorem section_bytes_found (f : PeFile) (pe : ParsedPE) (s : PeSection) (name : String)
    (h1 : f.parsed = some pe) (h2 : findSection pe name = some s)
    (h3 : s.pointer_to_raw_data + s.size_of_raw_data ≤ f.data.length) :
    f.section_bytes name =
      .ok (some ((f.data.drop s.pointer_to_raw_data).take s.size_of_raw_data)) := by
  unfold PeFile.section_bytes
  rw [parse_pe_eq f pe h1, exBind_ok, h2]
  simp [h3, exPure]

theorem section_bytes_oob (f : PeFile) (pe : ParsedPE) (s : PeSection) (name : String)
    (h1 : f.parsed = some pe) (h2 : findSection pe name = some s)
    (h3 : ¬ s.pointer_to_raw_data + s.size_of_raw_data ≤ f.data.length) :
    f.section_bytes name = .ok none := by
  unfold PeFile.section_bytes
  rw [parse_pe_eq f pe h1, exBind_ok, h2]
  simp [h3, exPure]

theorem section_bytes_nofind (f : PeFile) (pe : ParsedPE) (name : String)
    (h1 : f.parsed = some pe) (h2 : findSection pe name = none) :
    f.section_bytes name = .ok none := by
  unfold PeFile.section_bytes
  rw [parse_pe_eq f pe h1, exBind_ok, h2]
  rfl

theorem section_info_found (f : PeFile) (pe : ParsedPE) (s : PeSection) (name : String)
    (h1 : f.parsed = some pe) (h2 : findSection pe name = some s) :
    f.section_info name = .ok (some (s.pointer_to_raw_data, s.size_of_raw_data)) := by
  unfold PeFile.section_info
  rw [parse_pe_eq f pe h1, exBind_ok, h2]
  rfl

theorem read_text_eq (f : PeFile) (name : String) (ob : Option (List Nat))
    (h : f.section_bytes name = .ok ob) :
    f.read_text name = .ok (ob.map (fun b => utf8Lossy (truncAtNul b))) := by
  unfold PeFile.read_text
  rw [h, exBind_ok, exPure]

theorem sbal_found (f : PeFile) (name : String) (bytes : List Nat) (off sz : Nat)
    (hb : f.section_bytes name = .ok (some bytes))
    (hi : f.section_info name = .ok (some (off, sz))) :
    f.section_bytes_and_location name = .ok (bytes, (off, sz)) := by
  unfold PeFile.section_bytes_and_location
  rw [hb, exBind_ok]
  show (f.section_info name >>= fun i? =>
    match i? with
    | none => Except.error (Err.sectionInfoMissing name)
    | some (offset, size) => pure (bytes, offset, size)) = Except.ok (bytes, (off, sz))
  rw [hi, exBind_ok]
  rfl

theorem sbal_notfound (f : PeFile) (name : String)
    (hb : f.section_bytes name = .ok none) :
    f.section_bytes_and_location name = .error (.sectionNotFound name) := by
  unfold PeFile.section_bytes_and_location
  rw [hb, exBind_ok]

theorem siab_found (f : PeFile) (name : String) (bytes : List Nat) (off sz : Nat)
    (hb : f.section_bytes name = .ok (some bytes))
    (hi : f.section_info name = .ok (some (off, sz))) :
    f.section_info_and_bytes name =
      .ok ({ offset := off, size := sz, sha256 := "" }, bytes) := by
  unfold PeFile.section_info_and_bytes
  rw [sbal_found f name bytes off sz hb hi, exBind_ok]
  rfl

theorem siab_notfound (f : PeFile) (name : String)
    (hb : f.section_bytes name = .ok none) :
    f.section_info_and_bytes name = .error (.sectionNotFound name) := by
  unfold PeFile.section_info_and_bytes
  rw [sbal_notfound f name hb, exBind_error]
theorem arch_summary_ok_elim (f : PeFile) (pr : String × Bool)
    (h : f.arch_summary = .ok pr) :
    ∃ pe, f.parsed = some pe ∧ pr = (archOf pe.machine, pe.is_64) := by
  cases hp : f.parsed with
  | none =>
    unfold PeFile.arch_summary at h
    rw [show f.parse_pe = .error .malformedImage by simp [PeFile.parse_pe, hp],
      exBind_error] at h
    exact Except.noConfusion h
  | some pe =>
    rw [arch_summary_eq f pe hp] at h
    exact ⟨pe, rfl, (Except.ok.injEq _ _ ▸ h).symm⟩

theorem inspect_ok_elim (pef : PeFile) (r : Report) (h : inspect pef = .ok r) :
    ∃ pe cmdOpt osr iL bL iI bI,
      pef.parsed = some pe ∧
      pef.read_text ".cmdline" = .ok cmdOpt ∧
      read_os_release pef = .ok osr ∧
      pef.section_info_and_bytes ".linux" = .ok (iL, bL) ∧
      pef.section_info_and_bytes ".initrd" = .ok (iI, bI) ∧
      r = { arch := archOf pe.machine, pe32_plus := pe.is_64,
            has_signature := decide (pe.certificates.length > 0),
            cert_count := pe.certificates.length,
            cmdline := trimStr (cmdOpt.getD ""),
            os_release := osr,
            linux := { offset := iL.offset, size := iL.size, sha256 := sha256hex bL },
            initrd := { sect := { offset := iI.offset, size := iI.size,
                                  sha256 := sha256hex bI },
                        compression := detect bI, entries_estimate := none } } := by
  unfold inspect at h
  split at h
  · exact Except.noConfusion h
  next arch pe32p harch =>
    split at h
    · exact Except.noConfusion h
    next cmdOpt hcmd =>
      split at h
      · exact Except.noConfusion h
      next osr hosr =>
        split at h
        · exact Except.noConfusion h
        next iL bL hlinux =>
          split at h
          · exact Except.noConfusion h
          next iI bI hinitrd =>
            split at h
            · exact Except.noConfusion h
            next blobs hblobs =>
              obtain ⟨pe, hp, hpr⟩ := arch_summary_ok_elim pef (arch, pe32p) harch
              obtain ⟨harch2, h64⟩ := Prod.mk.injEq .. |>.mp hpr
              have hbl : blobs = pe.certificates.map (fun c => c.certificate) := by
                have hcb := cert_blobs_eq pef pe hp
                rw [hblobs] at hcb
                exact Except.ok.injEq .. |>.mp hcb
              have hlen : blobs.length = pe.certificates.length := by
                rw [hbl, List.length_map]
              refine ⟨pe, cmdOpt, osr, iL, bL, iI, bI, hp, hcmd, hosr, hlinux, hinitrd, ?_⟩
              have hr := Except.ok.injEq .. |>.mp h
              rw [← hr, harch2, h64, hlen]
theorem read_os_release_none (pef : PeFile)
    (h : pef.section_bytes ".osrel" = .ok none) :
    read_os_release pef = .ok none := by
  unfold read_os_release
  rw [read_text_eq pef ".osrel" none h, exBind_ok]
  rfl

theorem inspect_eq_of_stages (pef : PeFile) (pe : ParsedPE)
    (cmdOpt : Option String) (osr : Option OsRelease)
    (iL : SectionInfo) (bL : List Nat) (iI : SectionInfo) (bI : List Nat)
    (hp : pef.parsed = some pe)
    (hcmd : pef.read_text ".cmdline" = .ok cmdOpt)
    (hosr : read_os_release pef = .ok osr)
    (hlin : pef.section_info_and_bytes ".linux" = .ok (iL, bL))
    (hini : pef.section_info_and_bytes ".initrd" = .ok (iI, bI)) :
    inspect pef = .ok
      { arch := archOf pe.machine, pe32_plus := pe.is_64,
        has_signature := decide ((pe.certificates.map (fun c => c.certificate)).length > 0),
        cert_count := (pe.certificates.map (fun c => c.certificate)).length,
        cmdline := trimStr (cmdOpt.getD ""), os_release := osr,
        linux := { offset := iL.offset, size := iL.size, sha256 := sha256hex bL },
        initrd := { sect := { offset := iI.offset, size := iI.size, sha256 := sha256hex bI },
                    compression := detect bI, entries_estimate := none } } := by
  simp only [inspect, arch_summary_eq pef pe hp, hcmd, hosr, hlin, hini,
    cert_blobs_eq pef pe hp]
theorem section_bytes_ok_some_elim (f : PeFile) (name : String) (bytes : List Nat)
    (h : f.section_bytes name = .ok (some bytes)) :
    ∃ pe s, f.parsed = some pe ∧ findSection pe name = some s ∧
      s.pointer_to_raw_data + s.size_of_raw_data ≤ f.data.length ∧
      bytes = (f.data.drop s.pointer_to_raw_data).take s.size_of_raw_data := by
  cases hp : f.parsed with
  | none =>
    rw [show f.section_bytes name = .error .malformedImage by
      unfold PeFile.section_bytes
      rw [show f.parse_pe = Except.error Err.malformedImage by
        simp [PeFile.parse_pe, hp], exBind_error]] at h
    exact Except.noConfusion h
  | some pe =>
    cases hf : findSection pe name with
    | none =>
      rw [section_bytes_nofind f pe name hp hf] at h
      simp at h
    | some s =>
      by_cases hb : s.pointer_to_raw_data + s.size_of_raw_data ≤ f.data.length
      · rw [section_bytes_found f pe s name hp hf hb] at h
        simp at h
        exact ⟨pe, s, rfl, hf, hb, h.symm⟩
      · rw [section_bytes_oob f pe s name hp hf hb] at h
        simp at h

theorem section_info_ok_some_elim (f : PeFile) (name : String) (off sz : Nat)
    (h : f.section_info name = .ok (some (off, sz))) :
    ∃ pe s, f.parsed = some pe ∧ findSection pe name = some s ∧
      off = s.pointer_to_raw_data ∧ sz = s.size_of_raw_data := by
  cases hp : f.parsed with
  | none =>
    rw [show f.section_info name = .error .malformedImage by
      unfold PeFile.section_info
      rw [show f.parse_pe = Except.error Err.malformedImage by
        simp [PeFile.parse_pe, hp], exBind_error]] at h
    exact Except.noConfusion h
  | some pe =>
    cases hf : findSection pe name with
    | none =>
      rw [show f.section_info name = .ok none by
        unfold PeFile.section_info
        rw [parse_pe_eq f pe hp, exBind_ok, hf]
        rfl] at h
      simp at h
    | some s =>
      rw [section_info_found f pe s name hp hf] at h
      simp at h
      exact ⟨pe, s, rfl, hf, h.1.symm, h.2.symm⟩

theorem sbal_ok_elim (f : PeFile) (name : String) (bytes : List Nat) (off sz : Nat)
    (h : f.section_bytes_and_location name = .ok (bytes, (off, sz))) :
    f.section_bytes name = .ok (some bytes) ∧
      f.section_info name = .ok (some (off, sz)) := by
  unfold PeFile.section_bytes_and_location at h
  cases hb : f.section_bytes name with
  | error e => rw [hb, exBind_error] at h; exact Except.noConfusion h
  | ok ob =>
    rw [hb, exBind_ok] at h
    cases ob with
    | none => exact Except.noConfusion h
    | some bytes2 =>
      replace h : (f.section_info name >>= fun i? =>
          match i? with
          | none => Except.error (Err.sectionInfoMissing name)
          | some (offset, size) => pure (bytes2, offset, size)) =
          Except.ok (bytes, (off, sz)) := h
      cases hi : f.section_info name with
      | error e => rw [hi, exBind_error] at h; exact Except.noConfusion h
      | ok oi =>
        rw [hi, exBind_ok] at h
        cases oi with
        | none => exact Except.noConfusion h
        | some pr =>
          obtain ⟨off2, sz2⟩ := pr
          simp [exPure] at h
          obtain ⟨h1, h2, h3⟩ := h
          subst h1; subst h2; subst h3
          exact ⟨rfl, rfl⟩

theorem siab_ok_elim (f : PeFile) (name : String) (info : SectionInfo) (b : List Nat)
    (h : f.section_info_and_bytes name = .ok (info, b)) :
    f.section_bytes_and_location name = .ok (b, (info.offset, info.size)) ∧
      info.sha256 = "" := by
  unfold PeFile.section_info_and_bytes at h
  cases hs : f.section_bytes_and_location name with
  | error e => rw [hs, exBind_error] at h; exact Except.noConfusion h
  | ok pr =>
    obtain ⟨bytes, off, sz⟩ := pr
    rw [hs, exBind_ok] at h
    simp [exPure] at h
    obtain ⟨h1, h2⟩ := h
    subst h1
    subst h2
    exact ⟨rfl, rfl⟩

theorem slice_length (data : List Nat) (off sz : Nat) (h : off + sz ≤ data.length) :
    ((data.drop off).take sz).length = sz := by
  simp [List.length_take, List.length_drop]
  omega

theorem siab_full_elim (f : PeFile) (name : String) (info : SectionInfo) (b : List Nat)
    (h : f.section_info_and_bytes name = .ok (info, b)) :
    ∃ pe s, f.parsed = some pe ∧ findSection pe name = some s ∧
      info.offset = s.pointer_to_raw_data ∧ info.size = s.size_of_raw_data ∧
      info.offset + info.size ≤ f.data.length ∧
      b = (f.data.drop info.offset).take info.size ∧
      b.length = info.size := by
  obtain ⟨hs, hsha⟩ := siab_ok_elim f name info b h
  obtain ⟨hb, hi⟩ := sbal_ok_elim f name b info.offset info.size hs
  obtain ⟨pe, s, hp, hf, hbound, hbytes⟩ := section_bytes_ok_some_elim f name b hb
  obtain ⟨pe2, s2, hp2, hf2, ho, hz⟩ :=
    section_info_ok_some_elim f name info.offset info.size hi
  have hpe : pe = pe2 := by rw [hp] at hp2; exact Option.some.injEq .. |>.mp hp2
  subst hpe
  have hse : s = s2 := by rw [hf] at hf2; exact Option.some.injEq .. |>.mp hf2
  subst hse
  refine ⟨pe, s, hp, hf, ho, hz, ?_, ?_, ?_⟩
  · rw [ho, hz]; exact hbound
  · rw [ho, hz]; exact hbytes
  · rw [hbytes, hz]
    exact slice_length f.data s.pointer_to_raw_data s.size_of_raw_data hbound

/-- Once the headers parse, `section_bytes` cannot fail (missing sections and
bad coordinates are folded into `none`). -/
theorem section_bytes_total (f : PeFile) (pe : ParsedPE) (name : String)
    (hp : f.parsed = some pe) : ∃ ob, f.section_bytes name = .ok ob := by
  cases hf : findSection pe name with
  | none => exact ⟨none, section_bytes_nofind f pe name hp hf⟩
  | some s =>
    by_cases hb : s.pointer_to_raw_data + s.size_of_raw_data ≤ f.data.length
    · exact ⟨_, section_bytes_found f pe s name hp hf hb⟩
    · exact ⟨none, section_bytes_oob f pe s name hp hf hb⟩

/-- A parse failure on present `.osrel` text propagates out of
`read_os_release`. -/
theorem read_os_release_parse_err (pef : PeFile) (t : String) (e : Err)
    (ht : pef.read_text ".osrel" = .ok (some t))
    (hperr : parse_os_release_str t = .error e) :
    read_os_release pef = .error e := by
  unfold read_os_release
  rw [ht, exBind_ok]
  simp only [hperr, exBind_error]

/-! ### Digest shape lemmas -/

/-- The SHA-256 digest always has 32 bytes. -/
theorem sha256Bytes_length (msg : List Nat) : (sha256Bytes msg).length = 32 := by
  simp [sha256Bytes, wordBytes]

/-- Hex rendering doubles the length. -/
theorem flatMap_hexByte_length (l : List Nat) :
    (l.flatMap hexByte).length = 2 * l.length := by
  induction l with
  | nil => rfl
  | cons a t ih =>
    simp only [List.flatMap_cons, List.length_append, ih, hexByte,
      List.length_cons, List.length_nil, List.length_cons]
    omega

/-- Every hex digit the renderer produces is one of the sixteen lowercase
hexadecimal characters. -/
theorem hexDigit_mem (n : Nat) : hexDigit n ∈ hexChars := by
  have hd : hexDigit n = (hexChars.get? n).getD '0' := rfl
  cases hg : hexChars.get? n with
  | none => rw [hd, hg]; decide
  | some c =>
    rw [hd, hg]
    exact List.get?_mem hg

/-- The os-release text of the Fedora 41 example (the repository's
`osrelease_parses_fedora41_and_prefers_pretty_name` test input). -/
def fedoraOsRelease : String :=
  "NAME=\"Fedora Linux\"\nVERSION=\"41 (Forty One)\"\nID=fedora\nVERSION_ID=41\nPRETTY_NAME=\"Fedora Linux 41 (Forty One)\"\n"

/-- The os-release text of the no-PRETTY_NAME example (the repository's
`osrelease_falls_back_to_name_when_pretty_missing` test input). -/
def myOsRelease : String :=
  "NAME=\"MyOS\"\nID=myos\nVERSION_ID=\"1.2.3\"\n"

/-- Claim C3: compression classification is a total deterministic function of
the byte sequence; bytes beginning `1F 8B` map to Gzip, `FD 37 7A 58 5A 00`
to Xz, `28 B5 2F FD` to Zstd, ASCII `070701` to the uncompressed archive
kind, and any other byte sequence — including empty input — to Unknown. -/
theorem c3_detect_magic_table (b rest : List Nat)
    (hg : b.take 2 ≠ [0x1F, 0x8B])
    (hx : b.take 6 ≠ [0xFD, 0x37, 0x7A, 0x58, 0x5A, 0x00])
    (hz : b.take 4 ≠ [0x28, 0xB5, 0x2F, 0xFD])
    (hc : b.take 6 ≠ [0x30, 0x37, 0x30, 0x37, 0x30, 0x31]) :
    detect (0x1F :: 0x8B :: rest) = .gzip ∧
    detect (0xFD :: 0x37 :: 0x7A :: 0x58 :: 0x5A :: 0x00 :: rest) = .xz ∧
    detect (0x28 :: 0xB5 :: 0x2F :: 0xFD :: rest) = .zstd ∧
    detect (0x30 :: 0x37 :: 0x30 :: 0x37 :: 0x30 :: 0x31 :: rest) = .uncompressed ∧
    detect ([] : List Nat) = .unknown ∧
    detect b = .unknown := by
  refine ⟨rfl, rfl, rfl, rfl, rfl, ?_⟩
  unfold detect
  split
  · simp_all [List.take]
  · simp_all [List.take]
  · simp_all [List.take]
  · simp_all [List.take]
  · rfl

/-- Witness for C3 at the concrete input `[0x00, 0x01]` (the repository's
"unknown / too short" test case). -/
theorem c3_detect_magic_table_witness :
    detect ([0x1F, 0x8B] ++ [0x08, 0x00]) = .gzip ∧
    detect [0x00, 0x01] = .unknown ∧ detect ([] : List Nat) = .unknown := by
  have h := c3_detect_magic_table [0x00, 0x01] [0x08, 0x00]
    (by decide) (by decide) (by decide) (by decide)
  exact ⟨h.1, h.2.2.2.2.2, h.2.2.2.2.1⟩

/-- Claim C4: the derived os-release `name` equals the `PRETTY_NAME` value
when that key is present and otherwise the `NAME` value (absent when neither
key exists); on the Fedora 41 example the derived name is
`Fedora Linux 41 (Forty One)` with id `fedora`, and on the `MyOS` example
(no PRETTY_NAME) the derived name is `MyOS`. -/
theorem c4_osrel_prefers_pretty_name :
    (∀ text m info, parse_os_release_str text = .ok m →
      read_os_release_from_str text = .ok (some info) →
      (∀ v, osGet m "PRETTY_NAME" = some v → info.name = some v) ∧
      (osGet m "PRETTY_NAME" = none → info.name = osGet m "NAME") ∧
      info.id = osGet m "ID" ∧ info.version_id = osGet m "VERSION_ID") ∧
    read_os_release_from_str fedoraOsRelease =
      .ok (some ⟨some "Fedora Linux 41 (Forty One)", some "fedora", some "41"⟩) ∧
    read_os_release_from_str myOsRelease =
      .ok (some ⟨some "MyOS", some "myos", some "1.2.3"⟩) := by
  refine ⟨?_, rfl, rfl⟩
  intro text m info h1 h2
  unfold read_os_release_from_str at h2
  rw [h1, exBind_ok] at h2
  simp only [exPure, Except.ok.injEq, Option.some.injEq] at h2
  subst h2
  refine ⟨?_, ?_, rfl, rfl⟩
  · intro v hv
    simp [hv, Option.orElse]
  · intro hv
    simp [hv, Option.orElse]

/-- Witness for C4 at the concrete Fedora 41 input. -/
theorem c4_osrel_prefers_pretty_name_witness :
    (osGet [("PRETTY_NAME", "Fedora Linux 41 (Forty One)"), ("VERSION_ID", "41"),
        ("ID", "fedora"), ("VERSION", "41 (Forty One)"), ("NAME", "Fedora Linux")]
      "PRETTY_NAME" = some "Fedora Linux 41 (Forty One)" →
      (some "Fedora Linux 41 (Forty One)" : Option String) =
        some "Fedora Linux 41 (Forty One)") ∧
    (some "fedora" : Option String) =
      osGet [("PRETTY_NAME", "Fedora Linux 41 (Forty One)"), ("VERSION_ID", "41"),
        ("ID", "fedora"), ("VERSION", "41 (Forty One)"), ("NAME", "Fedora Linux")] "ID" := by
  have h := (c4_osrel_prefers_pretty_name.1 fedoraOsRelease
    [("PRETTY_NAME", "Fedora Linux 41 (Forty One)"), ("VERSION_ID", "41"),
     ("ID", "fedora"), ("VERSION", "41 (Forty One)"), ("NAME", "Fedora Linux")]
    ⟨some "Fedora Linux 41 (Forty One)", some "fedora", some "41"⟩ rfl rfl)
  exact ⟨fun hp => h.1 "Fedora Linux 41 (Forty One)" hp, h.2.2.1⟩

/-! ### Concrete images used by witnesses and counterexamples -/

/-- An image whose only section is an `.osrel` holding the eight ASCII bytes
`NOEQUALS` (a non-blank os-release line with no `=`); no `.linux` section. -/
def pefNoLinux : PeFile :=
  ⟨[0x4E, 0x4F, 0x45, 0x51, 0x55, 0x41, 0x4C, 0x53],
   some ⟨0x8664, true, [⟨".osrel", 0, 8⟩], []⟩⟩

/-- A four-byte image whose section table claims `.linux` spans
`[2, 12)` — past the end of the data. -/
def pefOob : PeFile :=
  ⟨[0x00, 0x00, 0x00, 0x00], some ⟨0x8664, true, [⟨".linux", 2, 10⟩], []⟩⟩

/-- An image whose `.osrel` bytes are `\x20 X` — text with leading whitespace. -/
def pefWsOsrel : PeFile :=
  ⟨[0x20, 0x58], some ⟨0x8664, true, [⟨".osrel", 0, 2⟩], []⟩⟩

/-- A minimal well-formed image: `.linux` and `.initrd` only. -/
def pefMin : PeFile :=
  ⟨[0xAA, 0xBB, 0x1F, 0x8B],
   some ⟨0x8664, true, [⟨".linux", 0, 2⟩, ⟨".initrd", 2, 2⟩], []⟩⟩

/-- An image with an `.initrd` but no `.linux`. -/
def pefOnlyInitrd : PeFile :=
  ⟨[0x1F, 0x8B], some ⟨0x8664, true, [⟨".initrd", 0, 2⟩], []⟩⟩

/-- An image with a `.linux` but no `.initrd`. -/
def pefOnlyLinux : PeFile :=
  ⟨[0xAA, 0xBB], some ⟨0x8664, true, [⟨".linux", 0, 2⟩], []⟩⟩

/-- A full well-formed image: `.linux` (`AA BB`), gzip-magic `.initrd`,
NUL-padded `.cmdline` reading `\x20quiet splash`, an `.osrel` with a
`PRETTY_NAME` and `ID`, and one attribute certificate. -/
def pefFull : PeFile :=
  ⟨[0xAA, 0xBB, 0x1F, 0x8B, 0x20, 0x71, 0x75, 0x69, 0x65, 0x74, 0x20, 0x73, 0x70,
    0x6C, 0x61, 0x73, 0x68, 0x00, 0x00, 0x00, 0x50, 0x52, 0x45, 0x54, 0x54, 0x59,
    0x5F, 0x4E, 0x41, 0x4D, 0x45, 0x3D, 0x54, 0x65, 0x73, 0x74, 0x20, 0x4C, 0x69,
    0x6E, 0x75, 0x78, 0x0A, 0x49, 0x44, 0x3D, 0x74, 0x65, 0x73, 0x74, 0x0A],
   some ⟨0x8664, true,
     [⟨".linux", 0, 2⟩, ⟨".initrd", 2, 2⟩, ⟨".cmdline", 4, 16⟩, ⟨".osrel", 20, 31⟩],
     [⟨8, 2, 2, [1, 2]⟩]⟩⟩

/-- The report `inspect` produces on `pefFull`. -/
def repFull : Report :=
  ⟨"x86_64", true, true, 1, "quiet splash",
   some ⟨some "Test Linux", some "test", none⟩,
   ⟨0, 2, "d798d1fac6bd4bb1c11f50312760351013379a0ab6f0a8c0af8a506b96b2525a"⟩,
   ⟨⟨2, 2, "ee98dc6af27a9f1c8cc4aaa2fd05b5f6e7c98f51390253a5263b0d096c3510fe"⟩,
    .gzip, none⟩⟩

/-- Claim C1 (amended): for an image whose headers parse and whose optional
`.osrel` stage succeeds, a missing required section aborts the inspection with
the section-not-found error naming it — `.linux` checked first, `.initrd`
second — and no Report is produced.  (The original claim's "regardless of
the contents of the other sections" fails: a present but unparseable
`.osrel` aborts earlier with the parse error, see the counterexample.) -/
theorem c1_required_section_missing (pef : PeFile) (pe : ParsedPE)
    (osr : Option OsRelease)
    (hp : pef.parsed = some pe)
    (hosr : read_os_release pef = .ok osr) :
    (findSection pe ".linux" = none →
      inspect pef = .error (.sectionNotFound ".linux")) ∧
    (∀ sL, findSection pe ".linux" = some sL →
      sL.pointer_to_raw_data + sL.size_of_raw_data ≤ pef.data.length →
      findSection pe ".initrd" = none →
      inspect pef = .error (.sectionNotFound ".initrd")) := by
  obtain ⟨cb, hcb⟩ := section_bytes_total pef pe ".cmdline" hp
  have hcmd := read_text_eq pef ".cmdline" cb hcb
  constructor
  · intro hnl
    have hlin := siab_notfound pef ".linux" (section_bytes_nofind pef pe ".linux" hp hnl)
    simp only [inspect, arch_summary_eq pef pe hp, hcmd, hosr, hlin]
  · intro sL hfl hbl hni
    have hlb := section_bytes_found pef pe sL ".linux" hp hfl hbl
    have hli := section_info_found pef pe sL ".linux" hp hfl
    have hlin := siab_found pef ".linux" _ _ _ hlb hli
    have hini := siab_notfound pef ".initrd"
      (section_bytes_nofind pef pe ".initrd" hp hni)
    simp only [inspect, arch_summary_eq pef pe hp, hcmd, hosr, hlin, hini]

/-- Witness for C1: on a concrete image lacking `.linux` the inspection fails
naming `.linux`; on one lacking only `.initrd` it fails naming `.initrd`. -/
theorem c1_required_section_missing_witness :
    inspect pefOnlyInitrd = .error (.sectionNotFound ".linux") ∧
    inspect pefOnlyLinux = .error (.sectionNotFound ".initrd") := by
  constructor
  · exact (c1_required_section_missing pefOnlyInitrd _ none rfl rfl).1 rfl
  · exact (c1_required_section_missing pefOnlyLinux _ none rfl rfl).2
      ⟨".linux", 0, 2⟩ rfl (by decide) rfl

/-- Counterexample to claim C1 as stated: `pefNoLinux` lacks `.linux`
(`section_bytes` finds nothing), yet inspection fails with the os-release
parse error — not with `SectionNotFound(".linux")` — because its `.osrel`
content is unparseable and that step runs first. -/
theorem c1_counterexample :
    pefNoLinux.section_bytes ".linux" = Except.ok none ∧
    inspect pefNoLinux = .error .osReleaseParse ∧
    Err.osReleaseParse ≠ Err.sectionNotFound ".linux" := by
  exact ⟨rfl, rfl, by decide⟩

/-- Claim C2 (amended): for a section whose table entry is in bounds, the read
returns exactly the `[offset, offset+size)` slice (of exactly `size` bytes —
never clamped); for an entry exceeding the image length the read does NOT
fail with a dedicated bounds error — `section_bytes` returns `Ok(None)`,
indistinguishable from an absent section, and the combined lookup then aborts
with the section-not-found error. -/
theorem c2_section_read_exact_never_clamped (f : PeFile) (pe : ParsedPE)
    (s : PeSection) (name : String)
    (hp : f.parsed = some pe) (hf : findSection pe name = some s) :
    (s.pointer_to_raw_data + s.size_of_raw_data ≤ f.data.length →
      f.section_bytes name =
        .ok (some ((f.data.drop s.pointer_to_raw_data).take s.size_of_raw_data)) ∧
      ((f.data.drop s.pointer_to_raw_data).take s.size_of_raw_data).length =
        s.size_of_raw_data) ∧
    (¬ s.pointer_to_raw_data + s.size_of_raw_data ≤ f.data.length →
      f.section_bytes name = .ok none ∧
      f.section_bytes_and_location name = .error (.sectionNotFound name)) := by
  constructor
  · intro hb
    exact ⟨section_bytes_found f pe s name hp hf hb, slice_length f.data _ _ hb⟩
  · intro hb
    have h0 := section_bytes_oob f pe s name hp hf hb
    exact ⟨h0, sbal_notfound f name h0⟩

/-- Witness for C2: the in-bounds half on `pefMin` and the out-of-bounds half
on `pefOob`, both at `.linux`. -/
theorem c2_section_read_witness :
    (pefMin.section_bytes ".linux" =
      .ok (some ((pefMin.data.drop 0).take 2)) ∧
      ((pefMin.data.drop 0).take 2).length = 2) ∧
    (pefOob.section_bytes ".linux" = Except.ok none ∧
      pefOob.section_bytes_and_location ".linux" =
        .error (.sectionNotFound ".linux")) := by
  constructor
  · exact (c2_section_read_exact_never_clamped pefMin _ ⟨".linux", 0, 2⟩ ".linux"
      rfl rfl).1 (by decide)
  · exact (c2_section_read_exact_never_clamped pefOob _ ⟨".linux", 2, 10⟩ ".linux"
      rfl rfl).2 (by decide)

/-- Counterexample to claim C2 as stated: on `pefOob`, whose `.linux` entry
claims a range past the image end, the read succeeds with `Ok(None)` — it
does not fail with any `InvalidSectionBounds` error — and the eventual abort
reports the section as not found. -/
theorem c2_counterexample :
    pefOob.section_bytes ".linux" = Except.ok none ∧
    pefOob.section_bytes_and_location ".linux" =
      .error (.sectionNotFound ".linux") := by
  exact ⟨rfl, rfl⟩

/-- Claim C5: when headers parse and `.linux`/`.initrd` are present and in
bounds, absence of `.cmdline` yields a Report with an empty command line and
absence of `.osrel` yields a Report with no os-release — neither absence
fails the inspection. -/
theorem c5_optional_section_defaults (pef : PeFile) (pe : ParsedPE)
    (sL sI : PeSection)
    (hp : pef.parsed = some pe)
    (hL : findSection pe ".linux" = some sL)
    (hLb : sL.pointer_to_raw_data + sL.size_of_raw_data ≤ pef.data.length)
    (hI : findSection pe ".initrd" = some sI)
    (hIb : sI.pointer_to_raw_data + sI.size_of_raw_data ≤ pef.data.length)
    (hC : findSection pe ".cmdline" = none)
    (hO : findSection pe ".osrel" = none) :
    ∃ r, inspect pef = .ok r ∧ r.cmdline = "" ∧ r.os_release = none := by
  have hcb := section_bytes_nofind pef pe ".cmdline" hp hC
  have hcmd := read_text_eq pef ".cmdline" none hcb
  have hosr := read_os_release_none pef (section_bytes_nofind pef pe ".osrel" hp hO)
  have hlb := section_bytes_found pef pe sL ".linux" hp hL hLb
  have hli := section_info_found pef pe sL ".linux" hp hL
  have hlin := siab_found pef ".linux" _ _ _ hlb hli
  have hib := section_bytes_found pef pe sI ".initrd" hp hI hIb
  have hii := section_info_found pef pe sI ".initrd" hp hI
  have hini := siab_found pef ".initrd" _ _ _ hib hii
  exact ⟨_, inspect_eq_of_stages pef pe _ _ _ _ _ _ hp hcmd hosr hlin hini,
    rfl, rfl⟩

/-- Witness for C5 on the concrete image `pefMin` (no `.cmdline`, no
`.osrel`). -/
theorem c5_optional_section_defaults_witness :
    ∃ r, inspect pefMin = .ok r ∧ r.cmdline = "" ∧ r.os_release = none :=
  c5_optional_section_defaults pefMin _ ⟨".linux", 0, 2⟩ ⟨".initrd", 2, 2⟩
    rfl rfl (by decide) rfl (by decide) rfl rfl

/-- Claim C6 (amended): text extraction (`read_text`) truncates the raw bytes
at the first NUL and decodes them as lossy UTF-8, never failing the
inspection — but it does not trim; trimming is applied only to the command
line inside `inspect`, so a produced Report's `cmdline` equals its own trim,
while `.osrel` text reaches the parser untrimmed (see the counterexample). -/
theorem c6_text_extraction_no_trim (pef : PeFile) (name : String) (b : List Nat)
    (r : Report)
    (hb : pef.section_bytes name = .ok (some b))
    (hr : inspect pef = .ok r) :
    pef.read_text name = .ok (some (utf8Lossy (truncAtNul b))) ∧
    r.cmdline = trimStr r.cmdline := by
  constructor
  · exact read_text_eq pef name (some b) hb
  · obtain ⟨pe, cmdOpt, osr, iL, bL, iI, bI, hp, hcmd, hosr, hlin, hini, hrr⟩ :=
      inspect_ok_elim pef r hr
    rw [hrr]
    show trimStr (cmdOpt.getD "") = trimStr (trimStr (cmdOpt.getD ""))
    exact (trimStr_idem _).symm

/-- Witness for C6 on `pefFull` at its `.cmdline` section. -/
theorem c6_text_extraction_no_trim_witness :
    pefFull.read_text ".cmdline" =
      .ok (some (utf8Lossy (truncAtNul [0x20, 0x71, 0x75, 0x69, 0x65, 0x74, 0x20,
        0x73, 0x70, 0x6C, 0x61, 0x73, 0x68, 0x00, 0x00, 0x00]))) ∧
    repFull.cmdline = trimStr repFull.cmdline :=
  c6_text_extraction_no_trim pefFull ".cmdline" _ repFull rfl rfl

/-- Counterexample to claim C6 as stated: on `pefWsOsrel` the extracted
`.osrel` text keeps its leading whitespace — extraction of a narrow text
section does not trim. -/
theorem c6_counterexample :
    pefWsOsrel.read_text ".osrel" = Except.ok (some " X") ∧
    trimStr " X" ≠ " X" := by
  exact ⟨rfl, by decide⟩

/-- Claim C7: the digest is a pure total function producing a 64-character
string of lowercase hexadecimal digits for every byte sequence, and a produced
Report's `linux.sha256` and `initrd.sha256` are the digests of the respective
section bytes. -/
theorem c7_digest_hex_properties (msg : List Nat) (pef : PeFile) (r : Report)
    (bL bI : List Nat)
    (hr : inspect pef = .ok r)
    (hbL : pef.section_bytes ".linux" = .ok (some bL))
    (hbI : pef.section_bytes ".initrd" = .ok (some bI)) :
    (sha256hex msg).length = 64 ∧
    (∀ c ∈ (sha256hex msg).data, c ∈ hexChars) ∧
    r.linux.sha256 = sha256hex bL ∧
    r.initrd.sect.sha256 = sha256hex bI := by
  obtain ⟨pe, cmdOpt, osr, iL, bL2, iI, bI2, hp, hcmd, hosr, hlin, hini, hrr⟩ :=
    inspect_ok_elim pef r hr
  obtain ⟨hsL, _⟩ := siab_ok_elim pef ".linux" iL bL2 hlin
  obtain ⟨hbL2, _⟩ := sbal_ok_elim pef ".linux" bL2 iL.offset iL.size hsL
  obtain ⟨hsI, _⟩ := siab_ok_elim pef ".initrd" iI bI2 hini
  obtain ⟨hbI2, _⟩ := sbal_ok_elim pef ".initrd" bI2 iI.offset iI.size hsI
  have heL : bL2 = bL := by
    have h12 := hbL.symm.trans hbL2
    simp at h12
    exact h12.symm
  have heI : bI2 = bI := by
    have h12 := hbI.symm.trans hbI2
    simp at h12
    exact h12.symm
  refine ⟨?_, ?_, ?_, ?_⟩
  · have hsame : (sha256hex msg).length = ((sha256Bytes msg).flatMap hexByte).length :=
      rfl
    rw [hsame, flatMap_hexByte_length, sha256Bytes_length]
  · intro c hc
    have hc2 : c ∈ (sha256Bytes msg).flatMap hexByte := hc
    obtain ⟨bb, _, hcb⟩ := List.mem_flatMap.mp hc2
    simp only [hexByte, List.mem_cons, List.not_mem_nil, or_false] at hcb
    rcases hcb with h1 | h1 <;> (rw [h1]; exact hexDigit_mem _)
  · rw [hrr, heL]
  · rw [hrr, heI]

/-- Witness for C7 on `pefFull` (and the empty message for the shape part). -/
theorem c7_digest_hex_properties_witness :
    (sha256hex []).length = 64 ∧
    repFull.linux.sha256 = sha256hex [0xAA, 0xBB] ∧
    repFull.initrd.sect.sha256 = sha256hex [0x1F, 0x8B] := by
  have h := c7_digest_hex_properties [] pefFull repFull [0xAA, 0xBB] [0x1F, 0x8B]
    rfl rfl rfl
  exact ⟨h.1, h.2.2.1, h.2.2.2⟩

/-- Claim C8: in every produced Report, `has_signature` holds exactly when the
parsed attribute-certificate list is non-empty, and `cert_count` is its
length (so `has_signature` iff `cert_count > 0`); no verification occurs. -/
theorem c8_signature_presence (pef : PeFile) (r : Report)
    (hr : inspect pef = .ok r) :
    ∃ pe, pef.parsed = some pe ∧
      (r.has_signature = true ↔ pe.certificates ≠ []) ∧
      r.cert_count = pe.certificates.length ∧
      (r.has_signature = true ↔ 0 < r.cert_count) := by
  obtain ⟨pe, cmdOpt, osr, iL, bL, iI, bI, hp, hcmd, hosr, hlin, hini, hrr⟩ :=
    inspect_ok_elim pef r hr
  subst hrr
  refine ⟨pe, hp, ?_, rfl, ?_⟩
  · show decide (pe.certificates.length > 0) = true ↔ pe.certificates ≠ []
    simp [List.length_pos]
  · show decide (pe.certificates.length > 0) = true ↔ 0 < pe.certificates.length
    simp

/-- Witness for C8 on `pefFull`, which carries one attribute certificate. -/
theorem c8_signature_presence_witness :
    ∃ pe, pefFull.parsed = some pe ∧
      (repFull.has_signature = true ↔ pe.certificates ≠ []) ∧
      repFull.cert_count = pe.certificates.length ∧
      (repFull.has_signature = true ↔ 0 < repFull.cert_count) :=
  c8_signature_presence pefFull repFull rfl

/-- Claim C9: a successful `section_info_and_bytes` returns the coordinates of
the first section-table entry with the requested name, a byte slice that is
exactly the image range `[offset, offset+size)` (so the range is in bounds and
the slice length equals `size`); and in every produced Report, `linux.size`
and `initrd.size` equal the lengths of the byte slices whose digests sit
alongside them. -/
theorem c9_section_lookup_consistency (f : PeFile) (name : String)
    (info : SectionInfo) (b : List Nat) (pef : PeFile) (r : Report)
    (h : f.section_info_and_bytes name = .ok (info, b))
    (hr : inspect pef = .ok r) :
    (∃ pe s, f.parsed = some pe ∧ findSection pe name = some s ∧
      info.offset = s.pointer_to_raw_data ∧ info.size = s.size_of_raw_data ∧
      info.offset + info.size ≤ f.data.length ∧
      b = (f.data.drop info.offset).take info.size ∧ b.length = info.size) ∧
    (∃ bL bI, r.linux.size = bL.length ∧ r.linux.sha256 = sha256hex bL ∧
      r.initrd.sect.size = bI.length ∧ r.initrd.sect.sha256 = sha256hex bI) := by
  refine ⟨siab_full_elim f name info b h, ?_⟩
  obtain ⟨pe, cmdOpt, osr, iL, bL, iI, bI, hp, hcmd, hosr, hlin, hini, hrr⟩ :=
    inspect_ok_elim pef r hr
  obtain ⟨_, _, _, _, _, _, _, _, hlenL⟩ := siab_full_elim pef ".linux" iL bL hlin
  obtain ⟨_, _, _, _, _, _, _, _, hlenI⟩ := siab_full_elim pef ".initrd" iI bI hini
  subst hrr
  exact ⟨bL, bI, hlenL.symm, rfl, hlenI.symm, rfl⟩

/-- Witness for C9 on `pefFull` at `.linux`. -/
theorem c9_section_lookup_consistency_witness :
    (∃ pe s, pefFull.parsed = some pe ∧ findSection pe ".linux" = some s ∧
      (0 : Nat) = s.pointer_to_raw_data ∧ (2 : Nat) = s.size_of_raw_data ∧
      0 + 2 ≤ pefFull.data.length ∧
      [0xAA, 0xBB] = (pefFull.data.drop 0).take 2 ∧
      ([0xAA, 0xBB] : List Nat).length = 2) ∧
    (∃ bL bI, repFull.linux.size = bL.length ∧
      repFull.linux.sha256 = sha256hex bL ∧
      repFull.initrd.sect.size = bI.length ∧
      repFull.initrd.sect.sha256 = sha256hex bI) :=
  c9_section_lookup_consistency pefFull ".linux" ⟨0, 2, ""⟩ [0xAA, 0xBB]
    pefFull repFull rfl rfl

/-- Claim C10: if `.osrel` is present but its NUL-truncated, lossily decoded
text fails os-release parsing, the whole inspection returns that error and no
Report is produced — leniency covers only absence of the section. -/
theorem c10_unparseable_osrel_aborts (pef : PeFile) (pe : ParsedPE) (t : String)
    (e : Err)
    (hp : pef.parsed = some pe)
    (ht : pef.read_text ".osrel" = .ok (some t))
    (hperr : parse_os_release_str t = .error e) :
    inspect pef = .error e := by
  obtain ⟨cb, hcb⟩ := section_bytes_total pef pe ".cmdline" hp
  have hcmd := read_text_eq pef ".cmdline" cb hcb
  have hosr := read_os_release_parse_err pef t e ht hperr
  simp only [inspect, arch_summary_eq pef pe hp, hcmd, hosr]

/-- Witness for C10 on `pefNoLinux`, whose `.osrel` text is the
separator-free line `NOEQUALS`. -/
theorem c10_unparseable_osrel_aborts_witness :
    inspect pefNoLinux = .error .osReleaseParse :=
  c10_unparseable_osrel_aborts pefNoLinux _ "NOEQUALS" .osReleaseParse rfl rfl rfl

end Lowell
